import Mathlib

/-!
Shallow embedding of the `http` crate (src/request.rs and src/response.rs).

Strings are modelled by Lean `String`; Rust panics become `Option.none`;
`std::collections::HashMap` is modelled by an association list with
distinct keys (its iteration order is unspecified in the source, and no
claim below depends on the order of a map with more than one entry).
-/

set_option maxRecDepth 10000

/-- Rust `char::is_whitespace` (Unicode White_Space property). -/
def rustIsWhitespace (c : Char) : Bool :=
  (0x09 ≤ c.toNat && c.toNat ≤ 0x0D) || c.toNat = 0x20 || c.toNat = 0x85 ||
  c.toNat = 0xA0 || c.toNat = 0x1680 || (0x2000 ≤ c.toNat && c.toNat ≤ 0x200A) ||
  c.toNat = 0x2028 || c.toNat = 0x2029 || c.toNat = 0x202F || c.toNat = 0x205F ||
  c.toNat = 0x3000

/-- Splitting a character list at every delimiter character (the characters
satisfying `p`); models Rust `str::split`.  Always returns at least one
(possibly empty) segment, like Rust's split iterator. -/
def splitOnP (p : Char → Bool) : List Char → List (List Char)
  | [] => [[]]
  | x :: xs =>
    let r := splitOnP p xs
    if p x then [] :: r else (x :: r.headD []) :: r.tail

/-- Rust `str::split(c)` on a single delimiter character. -/
def splitOnChar (c : Char) (l : List Char) : List (List Char) :=
  splitOnP (fun x => x = c) l

/-- Rust `str::split_whitespace`: maximal runs of non-whitespace characters. -/
def splitWhitespace (l : List Char) : List (List Char) :=
  (splitOnP rustIsWhitespace l).filter (fun w => !w.isEmpty)

/-- Rust `str::contains(pat)` for a string pattern: substring containment. -/
def hasInfix (pat : List Char) : List Char → Bool
  | [] => pat.isEmpty
  | c :: cs => pat.isPrefixOf (c :: cs) || hasInfix pat cs

/-- `line.contains("HTTP")` from src/request.rs line 48. -/
def containsHTTP (s : String) : Bool :=
  hasInfix "HTTP".data s.data

/-- Rust `str::trim_start` (drop leading whitespace). -/
def rustTrimStart (l : List Char) : List Char :=
  l.dropWhile rustIsWhitespace

/-- Rust `str::lines`: split on `'\n'`, strip one trailing `'\r'` per line,
and drop the final empty segment produced by a trailing newline (an empty
input yields no lines at all). -/
def rustLines (s : String) : List String :=
  let parts := splitOnChar '\n' s.data
  let parts := match parts.getLast? with
    | some [] => parts.dropLast
    | _ => parts
  parts.map (fun l => String.mk (if l.getLast? = some '\r' then l.dropLast else l))

/-- `trim_end_matches('\u{0}')` from src/request.rs line 70. -/
def trimEndNul (s : String) : String :=
  String.mk ((s.data.reverse.dropWhile (fun c => c = '\x00')).reverse)

/-- `HashMap::insert` on the association-list model: the new binding replaces
any previous binding of the same key. -/
def hashInsert (m : List (String × String)) (k v : String) : List (String × String) :=
  (k, v) :: m.filter (fun p => !(p.1 = k : Bool))

/-- `Resource` enum, src/request.rs lines 5-8. -/
inductive Resource where
  | Path : String → Resource
  deriving DecidableEq, Repr

/-- `Method` enum, src/request.rs lines 106-117. -/
inductive Method where
  | Get | Post | Head | Put | Delete | Connect | Options | Trace | Patch
  | Uninitialized
  deriving DecidableEq, Repr

/-- `impl From<&str> for Method`, src/request.rs lines 125-137.  The match
in the source covers only six of the nine declared variants. -/
def Method.fromStr (s : String) : Method :=
  match s with
  | "GET" => Method.Get
  | "POST" => Method.Post
  | "HEAD" => Method.Head
  | "OPTIONS" => Method.Options
  | "TRACE" => Method.Trace
  | "PATCH" => Method.Patch
  | _ => Method.Uninitialized

/-- `Version` enum, src/request.rs lines 139-144. -/
inductive Version where
  | V1_1 | V2_0 | Uninitialized
  deriving DecidableEq, Repr

/-- `impl From<&str> for Version`, src/request.rs lines 146-154. -/
def Version.fromStr (s : String) : Version :=
  match s with
  | "HTTP/1.1" => Version.V1_1
  | "HTTP/2.0" => Version.V2_0
  | _ => Version.Uninitialized

/-- `HttpRequest` struct, src/request.rs lines 29-35. -/
structure HttpRequest where
  method : Method
  version : Version
  resource : Resource
  headers : List (String × String)
  msg_body : String
  deriving DecidableEq, Repr

/-- `process_req_line`, src/request.rs lines 75-86: split on whitespace and
take the first three tokens; the source `unwrap`s, so fewer than three
tokens is a panic, modelled as `none`.  Extra tokens are ignored. -/
def processReqLine (s : String) : Option (Method × Resource × Version) :=
  match splitWhitespace s.data with
  | m :: r :: v :: _ =>
    some (Method.fromStr (String.mk m), Resource.Path (String.mk r),
      Version.fromStr (String.mk v))
  | _ => none

/-- `process_header_line`, src/request.rs lines 88-102: split on `':'`; the
key is the first segment and the value is the second segment (the text
between the first and second colons) with leading whitespace trimmed;
either defaults to `""` when the corresponding segment is absent. -/
def processHeaderLine (s : String) : String × String :=
  let items := splitOnChar ':' s.data
  let key := match items[0]? with
    | some k => String.mk k
    | none => ""
  let value := match items[1]? with
    | some v => String.mk (rustTrimStart v)
    | none => ""
  (key, value)

/-- Mutable parse state of `impl From<String> for HttpRequest`,
src/request.rs lines 39-44. -/
structure ParseSt where
  method : Method
  version : Version
  resource : Resource
  headers : List (String × String)
  msg_body : String
  in_body : Bool
  deriving DecidableEq, Repr

/-- Initial parse state, src/request.rs lines 39-44. -/
def initSt : ParseSt :=
  { method := Method.Uninitialized
    version := Version.V1_1
    resource := Resource.Path ""
    headers := []
    msg_body := ""
    in_body := false }

/-- One iteration of the line loop, src/request.rs lines 46-63. -/
def step (st : ParseSt) (line : String) : Option ParseSt :=
  if st.in_body then
    some { st with msg_body := st.msg_body ++ line }
  else if containsHTTP line then
    match processReqLine line with
    | some (m, r, v) => some { st with method := m, resource := r, version := v }
    | none => none
  else if line.data.contains ':' then
    let kv := processHeaderLine line
    some { st with headers := hashInsert st.headers kv.1 kv.2 }
  else if line = "" then
    some { st with in_body := true }
  else
    some st

/-- `impl From<String> for HttpRequest`, src/request.rs lines 37-73.
`none` models a panic inside `process_req_line`. -/
def httpRequestFrom (s : String) : Option HttpRequest :=
  match (rustLines s).foldlM step initSt with
  | none => none
  | some st =>
    some { method := st.method
           version := st.version
           resource := st.resource
           headers := st.headers
           msg_body := trimEndNul st.msg_body }

/-- Rust `str::len` (`.len()` on the body in src/response.rs line 106):
the number of bytes of the UTF-8 encoding, accumulated per character. -/
def rustLen (s : String) : Nat :=
  s.data.foldl (fun n c => n + c.utf8Size) 0

/-- `HttpResponse` struct, src/response.rs lines 5-11. -/
structure HttpResponse where
  version : String
  status_code : String
  status_text : String
  headers : Option (List (String × String))
  body : Option String
  deriving DecidableEq, Repr

/-- `impl Default for HttpResponse`, src/response.rs lines 13-23. -/
def HttpResponse.default : HttpResponse :=
  { version := "HTTP/1.1"
    status_code := "200"
    status_text := "OK"
    headers := none
    body := none }

/-- `HttpResponse::headers`, src/response.rs lines 81-88: `unwrap`s the
optional map (a panic, modelled as `none`, when it is absent) and renders
each entry as `key:value\r\n`. -/
def HttpResponse.headersString (res : HttpResponse) : Option String :=
  match res.headers with
  | none => none
  | some m => some (m.foldl (fun acc kv => acc ++ kv.1 ++ ":" ++ kv.2 ++ "\r\n") "")

/-- `HttpResponse::body`, src/response.rs lines 90-95. -/
def HttpResponse.bodyStr (res : HttpResponse) : String :=
  match res.body with
  | some b => b
  | none => ""

/-- `impl From<HttpResponse> for String`, src/response.rs lines 98-110.
`none` models the panic inside `headers()` when the map is absent. -/
def responseToString (res : HttpResponse) : Option String :=
  match res.headersString with
  | none => none
  | some hstr =>
    some (res.version ++ " " ++ res.status_code ++ " " ++ res.status_text ++ "\r\n"
      ++ hstr ++ "Content-Length: " ++ toString (rustLen res.bodyStr)
      ++ "\r\n\r\n" ++ res.bodyStr)

/-- `HttpResponse::send_response`, src/response.rs lines 60-65: renders the
response and performs the write, but discards the write's result
(`let _ = write!(...)`) and returns `Ok(())` unconditionally.  The sink is
modelled as a function from the written string to the write's outcome; the
outer `none` models the panic inside serialization. -/
def sendResponse (res : HttpResponse) (write : String → Except String Unit) :
    Option (Except String Unit) :=
  match responseToString res with
  | none => none
  | some str => (fun _w => some (Except.ok ())) (write str)

/-- Shared builder `HttpResponse::new_from_status`, src/response.rs
lines 183-209. -/
def HttpResponse.new_from_status (headers : Option (List (String × String)))
    (body : Option String) (status_code status_text : String) : HttpResponse :=
  { version := "HTTP/1.1"
    status_code := if status_code = "200" then HttpResponse.default.status_code
                   else status_code
    status_text := status_text
    headers := match headers with
      | some h => some h
      | none => some (hashInsert [] "Content-Type" "text/plain")
    body := body }

/-- `HttpResponse::ok`, src/response.rs lines 226-228. -/
def HttpResponse.ok (headers : Option (List (String × String)))
    (body : Option String) : HttpResponse :=
  HttpResponse.new_from_status headers body "200" "OK"

/-- `HttpResponse::bad_request`, src/response.rs lines 283-285. -/
def HttpResponse.bad_request (headers : Option (List (String × String)))
    (body : Option String) : HttpResponse :=
  HttpResponse.new_from_status headers body "400" "Bad Request"

/-- `HttpResponse::not_found`, src/response.rs lines 295-297. -/
def HttpResponse.not_found (headers : Option (List (String × String)))
    (body : Option String) : HttpResponse :=
  HttpResponse.new_from_status headers body "404" "Not Found"

/-- `HttpResponse::internal_server_error`, src/response.rs lines 318-323. -/
def HttpResponse.internal_server_error (headers : Option (List (String × String)))
    (body : Option String) : HttpResponse :=
  HttpResponse.new_from_status headers body "500" "Internal Server Error"

/-- C1: evaluating the parser at the two-token request line `"GET HTTP/1.1"`:
the line contains `"HTTP"`, so it is processed by `process_req_line`, whose
third `unwrap` has no token to return — the code panics (modelled by
`none`); no `MalformedRequestLine` error value exists anywhere in the code. -/
theorem parse_two_token_request_line_panics :
    httpRequestFrom "GET HTTP/1.1" = none := by decide

/-- C2: the `From<&str>` match omits `"PUT"`, `"DELETE"` and `"CONNECT"`,
sending all three to the sentinel even though the `Method` enum declares
`Put`, `Delete` and `Connect` variants; the six remaining known tokens map
to their variants. -/
theorem method_classification_omits_three :
    Method.fromStr "PUT" = Method.Uninitialized ∧
    Method.fromStr "DELETE" = Method.Uninitialized ∧
    Method.fromStr "CONNECT" = Method.Uninitialized ∧
    Method.fromStr "GET" = Method.Get ∧
    Method.fromStr "POST" = Method.Post ∧
    Method.fromStr "HEAD" = Method.Head ∧
    Method.fromStr "OPTIONS" = Method.Options ∧
    Method.fromStr "TRACE" = Method.Trace ∧
    Method.fromStr "PATCH" = Method.Patch ∧
    Method.fromStr "put" = Method.Uninitialized := by decide

/-- C4: `send_response` discards the result of the write (`let _ = write!`)
and returns `Ok(())` unconditionally: a sink whose write fails still makes
the call report success. -/
theorem sendResponse_swallows_write_failure :
    sendResponse (HttpResponse.ok none (some "hi"))
      (fun _ => Except.error "broken pipe") = some (Except.ok ()) := rfl

/-- C5 counterexample: serializing a response whose `headers` field is
`None` (the `Default` value) panics inside `headers()`'s `unwrap`
(modelled by `none`), so serialization does not succeed for every
`HttpResponse` value. -/
theorem responseToString_default_headers_none :
    responseToString HttpResponse.default = none := rfl

/-- C5 amended: serialization succeeds for every response whose `headers`
field is present, and every response built by the shared builder (hence by
every status constructor) has its `headers` field present, so serializing
a constructor-built response always succeeds. -/
theorem responseToString_total_of_headers_present :
    (∀ r : HttpResponse, r.headers ≠ none → ∃ s, responseToString r = some s) ∧
    (∀ hs ob sc st, ∃ s,
      responseToString (HttpResponse.new_from_status hs ob sc st) = some s) := by
  constructor
  · intro r h
    obtain ⟨v, sc, st, hdrs, b⟩ := r
    cases hdrs with
    | none => exact absurd rfl h
    | some m => exact ⟨_, rfl⟩
  · intro hs ob sc st
    cases hs with
    | none => exact ⟨_, rfl⟩
    | some h => exact ⟨_, rfl⟩

/-- C5 witness: the amended theorem applied at a concrete response with
headers present. -/
theorem responseToString_total_witness :
    ∃ s, responseToString
      { version := "HTTP/1.1", status_code := "200", status_text := "OK",
        headers := some [("X", "y")], body := none } = some s :=
  responseToString_total_of_headers_present.1 _ (by decide)

/-- C6: a status constructor called with headers absent yields exactly the
single default header `Content-Type: text/plain`, and
`not_found(None, Some("missing"))` serializes byte-exactly to the
documented wire string. -/
theorem not_found_default_header_serialization :
    (∀ ob sc st, (HttpResponse.new_from_status none ob sc st).headers
        = some [("Content-Type", "text/plain")]) ∧
    responseToString (HttpResponse.not_found none (some "missing"))
      = some "HTTP/1.1 404 Not Found\r\nContent-Type:text/plain\r\nContent-Length: 7\r\n\r\nmissing" := by
  exact ⟨fun ob sc st => rfl, by decide⟩

/-- `splitOnP` never returns the empty list of segments. -/
theorem splitOnP_ne_nil (p : Char → Bool) (l : List Char) : splitOnP p l ≠ [] := by
  cases l with
  | nil => simp [splitOnP]
  | cons x xs =>
    simp only [splitOnP]
    by_cases h : p x <;> simp [h]

/-- The first segment of a split is the longest delimiter-free run, and the
remaining segments are the split of what follows the first delimiter. -/
theorem splitOnP_eq_takeWhile (p : Char → Bool) (l : List Char) :
    splitOnP p l = (l.takeWhile (fun c => !p c)) ::
      (match l.dropWhile (fun c => !p c) with
       | [] => []
       | _ :: rest => splitOnP p rest) := by
  induction l with
  | nil => simp [splitOnP]
  | cons x xs ih =>
    by_cases h : p x
    · simp [splitOnP, h, List.takeWhile_cons, List.dropWhile_cons]
    · simp only [splitOnP, h, if_false, List.takeWhile_cons, List.dropWhile_cons,
        Bool.not_false, if_true, ih]
      simp [h]

/-- The first segment of a split, as an indexed lookup. -/
theorem splitOnP_getZero (p : Char → Bool) (l : List Char) :
    (splitOnP p l)[0]? = some (l.takeWhile (fun c => !p c)) := by
  rw [splitOnP_eq_takeWhile]; simp

/-- The second segment of a split, as an indexed lookup. -/
theorem splitOnP_getOne (p : Char → Bool) (l : List Char) :
    (splitOnP p l)[1]? =
      (match l.dropWhile (fun c => !p c) with
       | [] => none
       | _ :: rest => some (rest.takeWhile (fun c => !p c))) := by
  rw [splitOnP_eq_takeWhile]
  cases hd : l.dropWhile (fun c => !p c) with
  | nil => rfl
  | cons x rest =>
    show (_ :: splitOnP p rest)[1]? = some (rest.takeWhile (fun c => !p c))
    simp [splitOnP_getZero]

/-- C3 counterexample: on the claim's own concrete input the parsed value of
`Host` is `"localhost"` — the text between the first and second colons —
not the claimed `"localhost:3000"`, because `process_header_line` takes the
second field of `split(':')` rather than the whole remainder.  (The code's
own doctest and unit test expect `"localhost"`.) -/
theorem header_value_truncated_at_second_colon :
    (httpRequestFrom "GET /greeting HTTP/1.1\r\nHost: localhost:3000\r\nAccept: */*\r\n\r\ntestbody123").map
        (fun r => List.lookup "Host" r.headers) = some (some "localhost") ∧
    ("localhost" : String) ≠ "localhost:3000" := by decide

/-- C3 amended: a header line splits at colons into key and value where the
key is the text before the first colon and the value is the text between
the first and the second colon (to end of line when there is no second
colon) with leading whitespace trimmed — text after a second colon is
dropped; the claim's concrete input therefore parses to method GET,
version HTTP/1.1, resource Path "/greeting", body "testbody123", and
headers mapping Host to "localhost" and Accept to "*/*". -/
theorem processHeaderLine_first_two_segments :
    (∀ s : String, processHeaderLine s =
      (String.mk (s.data.takeWhile (fun c => !(decide (c = ':')))),
       match s.data.dropWhile (fun c => !(decide (c = ':'))) with
       | [] => ""
       | _ :: rest => String.mk (rustTrimStart (rest.takeWhile (fun c => !(decide (c = ':'))))))) ∧
    (∃ req, httpRequestFrom "GET /greeting HTTP/1.1\r\nHost: localhost:3000\r\nAccept: */*\r\n\r\ntestbody123" = some req ∧
      req.method = Method.Get ∧ req.version = Version.V1_1 ∧
      req.resource = Resource.Path "/greeting" ∧
      List.lookup "Host" req.headers = some "localhost" ∧
      List.lookup "Accept" req.headers = some "*/*" ∧
      req.headers.length = 2 ∧ req.msg_body = "testbody123") := by
  constructor
  · intro s
    simp only [processHeaderLine, splitOnChar, splitOnP_getZero, splitOnP_getOne]
    cases hd : s.data.dropWhile (fun c => !(decide (c = ':'))) with
    | nil => rfl
    | cons x rest => rfl
  · refine ⟨{ method := Method.Get,
              version := Version.V1_1,
              resource := Resource.Path "/greeting",
              headers := [("Accept", "*/*"), ("Host", "localhost")],
              msg_body := "testbody123" },
      by decide, rfl, rfl, rfl, by decide, by decide, rfl, rfl⟩

/-- Folding character UTF-8 sizes from any accumulator. -/
theorem foldl_utf8Size (l : List Char) (n : Nat) :
    l.foldl (fun n c => n + c.utf8Size) n = n + String.utf8ByteSize.go l := by
  induction l generalizing n with
  | nil => simp [String.utf8ByteSize.go]
  | cons c cs ih =>
    simp only [List.foldl_cons, ih, String.utf8ByteSize.go]
    omega

/-- Rust's `.len()` model agrees with Lean's UTF-8 byte size. -/
theorem rustLen_eq_utf8ByteSize (s : String) : rustLen s = s.utf8ByteSize := by
  cases s with
  | mk l => simpa [rustLen] using foldl_utf8Size l 0

/-- Rendering a response whose header map is present. -/
theorem responseToString_render (r : HttpResponse) (m : List (String × String))
    (hm : r.headers = some m) :
    responseToString r = some (r.version ++ " " ++ r.status_code ++ " "
      ++ r.status_text ++ "\r\n"
      ++ m.foldl (fun acc kv => acc ++ kv.1 ++ ":" ++ kv.2 ++ "\r\n") ""
      ++ "Content-Length: " ++ toString (rustLen r.bodyStr)
      ++ "\r\n\r\n" ++ r.bodyStr) := by
  have h1 : r.headersString
      = some (m.foldl (fun acc kv => acc ++ kv.1 ++ ":" ++ kv.2 ++ "\r\n") "") := by
    simp [HttpResponse.headersString, hm]
  simp [responseToString, h1]

/-- C7: for every constructed response the serialized wire text carries a
`Content-Length` equal to the UTF-8 byte length of the body (also when the
body is absent, i.e. empty); the byte length differs from the character
count on multi-byte bodies, as the concrete serialization of a response
with body `"héllo"` (5 characters, 6 bytes) shows. -/
theorem content_length_is_body_byte_length :
    (∀ hso ob sc st, ∃ pre,
      responseToString (HttpResponse.new_from_status hso ob sc st)
        = some (pre ++ "Content-Length: " ++ toString (ob.getD "").utf8ByteSize
            ++ "\r\n\r\n" ++ ob.getD "")) ∧
    responseToString (HttpResponse.ok none (some "héllo"))
      = some "HTTP/1.1 200 OK\r\nContent-Type:text/plain\r\nContent-Length: 6\r\n\r\nhéllo" ∧
    ("héllo" : String).length = 5 ∧ ("héllo" : String).utf8ByteSize = 6 := by
  refine ⟨?_, by decide, by decide, by decide⟩
  intro hso ob sc st
  have hb : (HttpResponse.new_from_status hso ob sc st).bodyStr = ob.getD "" := by
    cases ob <;> rfl
  obtain ⟨m, hm⟩ : ∃ m, (HttpResponse.new_from_status hso ob sc st).headers = some m := by
    cases hso <;> exact ⟨_, rfl⟩
  refine ⟨(HttpResponse.new_from_status hso ob sc st).version ++ " "
      ++ (HttpResponse.new_from_status hso ob sc st).status_code ++ " "
      ++ (HttpResponse.new_from_status hso ob sc st).status_text ++ "\r\n"
      ++ m.foldl (fun acc kv => acc ++ kv.1 ++ ":" ++ kv.2 ++ "\r\n") "", ?_⟩
  rw [responseToString_render _ m hm, hb, rustLen_eq_utf8ByteSize]


/-- The lines the loop processes before entering the body: everything up to
the first blank line. -/
def preLines (s : String) : List String :=
  (rustLines s).takeWhile (fun l => l != "")

/-- A line the loop treats as a header line: it does not contain `"HTTP"`
(else it would be a request line) and it contains a colon. -/
def isHeaderLine (l : String) : Bool :=
  !containsHTTP l && l.data.contains ':'

/-- The value of the last header line with key `k` in a list of lines. -/
def lastHeaderValue (k : String) : List String → Option String
  | [] => none
  | l :: ls =>
    match lastHeaderValue k ls with
    | some v => some v
    | none =>
      if isHeaderLine l && ((processHeaderLine l).1 = k : Bool)
      then some (processHeaderLine l).2 else none

/-- The last line containing `"HTTP"` in a list of lines. -/
def lastReqLine : List String → Option String
  | [] => none
  | l :: ls =>
    match lastReqLine ls with
    | some r => some r
    | none => if containsHTTP l then some l else none

/-- Lookup in the association-list model of the headers map. -/
def headerLookup (k : String) : List (String × String) → Option String
  | [] => none
  | p :: m => if p.1 = k then some p.2 else headerLookup k m

/-- Number of entries of the headers map with key `k`. -/
def countKey (k : String) (m : List (String × String)) : Nat :=
  (m.filter (fun p => (p.1 = k : Bool))).length

/-- A key that is not the filtered-out one looks up unchanged. -/
theorem headerLookup_filter_ne (m : List (String × String)) (k k' : String)
    (h : k ≠ k') :
    headerLookup k' (m.filter (fun p => !(p.1 = k : Bool))) = headerLookup k' m := by
  induction m with
  | nil => rfl
  | cons p m ih =>
    by_cases hp : p.1 = k
    · rw [List.filter_cons_of_neg (by simp [hp])]
      rw [ih, headerLookup, if_neg (by rw [hp]; exact h)]
    · rw [List.filter_cons_of_pos (by simp [hp])]
      by_cases hq : p.1 = k'
      · simp [headerLookup, hq]
      · simp [headerLookup, hq, ih]

/-- Inserting resolves lookups: the inserted key maps to the new value and
other keys are unaffected. -/
theorem headerLookup_hashInsert (m : List (String × String)) (k v k' : String) :
    headerLookup k' (hashInsert m k v)
      = if k = k' then some v else headerLookup k' m := by
  by_cases h : k = k'
  · simp [hashInsert, headerLookup, h]
  · simp only [hashInsert, headerLookup, h, if_false, if_neg h,
      headerLookup_filter_ne m k k' h]

/-- Unfolding `countKey` over a kept head. -/
theorem countKey_cons_pos (p : String × String) (m : List (String × String))
    (k : String) (h : p.1 = k) : countKey k (p :: m) = countKey k m + 1 := by
  simp [countKey, List.filter_cons, h]

/-- Unfolding `countKey` over a skipped head. -/
theorem countKey_cons_neg (p : String × String) (m : List (String × String))
    (k : String) (h : ¬ p.1 = k) : countKey k (p :: m) = countKey k m := by
  simp [countKey, List.filter_cons, h]

/-- Counting a filtered-out key yields zero. -/
theorem countKey_filter_self (m : List (String × String)) (k : String) :
    countKey k (m.filter (fun p => !(p.1 = k : Bool))) = 0 := by
  induction m with
  | nil => rfl
  | cons p m ih =>
    by_cases hp : p.1 = k
    · rw [List.filter_cons_of_neg (by simp [hp])]; exact ih
    · rw [List.filter_cons_of_pos (by simp [hp]), countKey_cons_neg _ _ _ hp]
      exact ih

/-- Counting another key is unaffected by the filter. -/
theorem countKey_filter_ne (m : List (String × String)) (k k' : String)
    (h : k ≠ k') :
    countKey k' (m.filter (fun p => !(p.1 = k : Bool))) = countKey k' m := by
  induction m with
  | nil => rfl
  | cons p m ih =>
    by_cases hp : p.1 = k
    · rw [List.filter_cons_of_neg (by simp [hp])]
      rw [ih, countKey_cons_neg _ _ _ (by rw [hp]; exact h)]
    · rw [List.filter_cons_of_pos (by simp [hp])]
      by_cases hq : p.1 = k'
      · rw [countKey_cons_pos _ _ _ hq, countKey_cons_pos _ _ _ hq, ih]
      · rw [countKey_cons_neg _ _ _ hq, countKey_cons_neg _ _ _ hq, ih]

/-- Inserting resolves counts: the inserted key occurs exactly once and
other keys are unaffected. -/
theorem countKey_hashInsert (m : List (String × String)) (k v k' : String) :
    countKey k' (hashInsert m k v) = if k = k' then 1 else countKey k' m := by
  by_cases h : k = k'
  · subst h
    rw [if_pos rfl, hashInsert,
      countKey_cons_pos (k, v) (m.filter (fun p => !(p.1 = k : Bool))) k rfl,
      countKey_filter_self m k]
  · rw [if_neg h, hashInsert, countKey_cons_neg _ _ _ h,
      countKey_filter_ne m k k' h]

/-- In the body phase every line is appended to the message body and no
other field changes; in particular the body phase never fails. -/
theorem bodyFold (ls : List String) : ∀ st : ParseSt, st.in_body = true →
    ∃ b, List.foldlM step st ls = some { st with msg_body := b } := by
  induction ls with
  | nil => exact fun st _ => ⟨st.msg_body, rfl⟩
  | cons l ls ih =>
    intro st h
    have hstep : step st l = some { st with msg_body := st.msg_body ++ l } := by
      simp [step, h]
    obtain ⟨b, hb⟩ := ih { st with msg_body := st.msg_body ++ l } h
    refine ⟨b, ?_⟩
    rw [List.foldlM_cons, hstep]
    show List.foldlM step { st with msg_body := st.msg_body ++ l } ls = _
    rw [hb]

/-- In the header phase, a line containing `"HTTP"` is handed to
`process_req_line` (request-line branch). -/
theorem step_req (st : ParseSt) (l : String) (h0 : st.in_body = false)
    (h1 : containsHTTP l = true) :
    step st l = match processReqLine l with
      | some (m, r, v) => some { st with method := m, resource := r, version := v }
      | none => none := by
  simp [step, h0, h1]

/-- In the header phase, a colon line without `"HTTP"` is inserted into the
headers map (header-line branch). -/
theorem step_header (st : ParseSt) (l : String) (h0 : st.in_body = false)
    (h1 : containsHTTP l = false) (h2 : l.data.contains ':' = true) :
    step st l = some { st with
      headers := hashInsert st.headers (processHeaderLine l).1
        (processHeaderLine l).2 } := by
  have h2' : ':' ∈ l.data := by simpa using h2
  simp [step, h0, h1, h2']

/-- The first blank line flips the mode flag. -/
theorem step_blank (st : ParseSt) (h0 : st.in_body = false) :
    step st "" = some { st with in_body := true } := by
  simp [step, h0, containsHTTP, hasInfix, List.isPrefixOf]

/-- Any other header-phase line is silently ignored. -/
theorem step_other (st : ParseSt) (l : String) (h0 : st.in_body = false)
    (h1 : containsHTTP l = false) (h2 : l.data.contains ':' = false)
    (h3 : ¬ l = "") :
    step st l = some st := by
  have h2' : ¬ (':' ∈ l.data) := by simpa using h2
  simp [step, h0, h1, h2', h3]

/-- Characterization of the header-phase loop: starting outside the body on
blank-free lines, a successful fold leaves the mode flag and body alone,
resolves every key to the last matching header line (keys occurring exactly
once in the map), takes method/resource/version from the last line
containing `"HTTP"`, and only header lines contribute map entries. -/
theorem preFold_spec (ls : List String) : ∀ st st' : ParseSt,
    st.in_body = false → (∀ l ∈ ls, ¬ l = "") →
    List.foldlM step st ls = some st' →
    st'.in_body = false ∧
    st'.msg_body = st.msg_body ∧
    (∀ k, headerLookup k st'.headers =
      (match lastHeaderValue k ls with
       | some v => some v
       | none => headerLookup k st.headers)) ∧
    (∀ k, countKey k st'.headers =
      (match lastHeaderValue k ls with
       | some _ => 1
       | none => countKey k st.headers)) ∧
    (match lastReqLine ls with
     | some l => ∃ m r v, processReqLine l = some (m, r, v) ∧
         st'.method = m ∧ st'.resource = r ∧ st'.version = v
     | none =>
         st'.method = st.method ∧ st'.resource = st.resource ∧
         st'.version = st.version) ∧
    (∀ kv ∈ st'.headers, kv ∈ st.headers ∨
      ∃ l, l ∈ ls ∧ isHeaderLine l = true ∧ processHeaderLine l = kv) := by
  induction ls with
  | nil =>
    intro st st' h0 _ hfold
    have hst : st = st' := by simpa using hfold
    subst hst
    exact ⟨h0, rfl, fun k => rfl, fun k => rfl, ⟨rfl, rfl, rfl⟩,
      fun kv hkv => Or.inl hkv⟩
  | cons l ls ih =>
    intro st st' h0 hne hfold
    rw [List.foldlM_cons] at hfold
    cases hstep : step st l with
    | none => rw [hstep] at hfold; simp at hfold
    | some st1 =>
      rw [hstep] at hfold
      have hfold1 : List.foldlM step st1 ls = some st' := hfold
      have hne1 : ∀ x ∈ ls, ¬ x = "" := fun x hx => hne x (List.mem_cons_of_mem l hx)
      have hnel : ¬ l = "" := hne l (List.mem_cons_self l ls)
      by_cases hH : containsHTTP l = true
      · -- request-line branch
        rw [step_req st l h0 hH] at hstep
        cases hp : processReqLine l with
        | none => rw [hp] at hstep; cases hstep
        | some t =>
          obtain ⟨m, r, v⟩ := t
          rw [hp] at hstep
          have hib1 : st1.in_body = false := by
            injection hstep with h; rw [← h]; exact h0
          have hhh1 : st1.headers = st.headers := by
            injection hstep with h; rw [← h]
          have hbb1 : st1.msg_body = st.msg_body := by
            injection hstep with h; rw [← h]
          have hmm1 : st1.method = m := by
            injection hstep with h; rw [← h]
          have hrr1 : st1.resource = r := by
            injection hstep with h; rw [← h]
          have hvv1 : st1.version = v := by
            injection hstep with h; rw [← h]
          obtain ⟨ib, mb, lkp, cnt, lr, prov⟩ := ih st1 st' hib1 hne1 hfold1
          rw [hhh1] at lkp cnt prov
          rw [hbb1] at mb
          rw [hmm1, hrr1, hvv1] at lr
          have hisH : isHeaderLine l = false := by simp [isHeaderLine, hH]
          refine ⟨ib, mb, ?_, ?_, ?_, ?_⟩
          · intro k
            have hcons : lastHeaderValue k (l :: ls) = lastHeaderValue k ls := by
              cases hlv : lastHeaderValue k ls <;>
                simp [lastHeaderValue, hlv, hisH]
            rw [hcons]
            exact lkp k
          · intro k
            have hcons : lastHeaderValue k (l :: ls) = lastHeaderValue k ls := by
              cases hlv : lastHeaderValue k ls <;>
                simp [lastHeaderValue, hlv, hisH]
            rw [hcons]
            exact cnt k
          · cases hlr : lastReqLine ls with
            | some l' =>
              have h2 : lastReqLine (l :: ls) = some l' := by
                simp [lastReqLine, hlr]
              rw [h2]
              simpa [hlr] using lr
            | none =>
              have h2 : lastReqLine (l :: ls) = some l := by
                simp [lastReqLine, hlr, hH]
              rw [h2]
              simp only [hlr] at lr
              exact ⟨m, r, v, hp, lr.1, lr.2.1, lr.2.2⟩
          · intro kv hkv
            rcases prov kv hkv with h | ⟨l', hl', hh', hp'⟩
            · exact Or.inl h
            · exact Or.inr ⟨l', List.mem_cons_of_mem l hl', hh', hp'⟩
      · have hHf : containsHTTP l = false := by simpa using hH
        by_cases hC : l.data.contains ':' = true
        · -- header-line branch
          rw [step_header st l h0 hHf hC] at hstep
          have hib1 : st1.in_body = false := by
            injection hstep with h; rw [← h]; exact h0
          have hhh1 : st1.headers = hashInsert st.headers
              (processHeaderLine l).1 (processHeaderLine l).2 := by
            injection hstep with h; rw [← h]
          have hbb1 : st1.msg_body = st.msg_body := by
            injection hstep with h; rw [← h]
          have hmm1 : st1.method = st.method := by
            injection hstep with h; rw [← h]
          have hrr1 : st1.resource = st.resource := by
            injection hstep with h; rw [← h]
          have hvv1 : st1.version = st.version := by
            injection hstep with h; rw [← h]
          obtain ⟨ib, mb, lkp, cnt, lr, prov⟩ := ih st1 st' hib1 hne1 hfold1
          rw [hhh1] at lkp cnt prov
          rw [hbb1] at mb
          rw [hmm1, hrr1, hvv1] at lr
          have hC' : ':' ∈ l.data := by simpa using hC
          have hisH : isHeaderLine l = true := by simp [isHeaderLine, hHf, hC']
          refine ⟨ib, mb, ?_, ?_, ?_, ?_⟩
          · intro k
            have hlk := lkp k
            cases hlv : lastHeaderValue k ls with
            | some v0 =>
              simp only [hlv] at hlk
              simpa [lastHeaderValue, hlv] using hlk
            | none =>
              simp only [hlv] at hlk
              rw [headerLookup_hashInsert] at hlk
              by_cases hk : (processHeaderLine l).1 = k
              · rw [if_pos hk] at hlk
                simp [lastHeaderValue, hlv, hisH, hk, hlk]
              · rw [if_neg hk] at hlk
                simp [lastHeaderValue, hlv, hisH, hk, hlk]
          · intro k
            have hlk := cnt k
            cases hlv : lastHeaderValue k ls with
            | some v0 =>
              simp only [hlv] at hlk
              simpa [lastHeaderValue, hlv] using hlk
            | none =>
              simp only [hlv] at hlk
              rw [countKey_hashInsert] at hlk
              by_cases hk : (processHeaderLine l).1 = k
              · rw [if_pos hk] at hlk
                simp [lastHeaderValue, hlv, hisH, hk, hlk]
              · rw [if_neg hk] at hlk
                simp [lastHeaderValue, hlv, hisH, hk, hlk]
          · have hlr2 : lastReqLine (l :: ls) = lastReqLine ls := by
              cases hlr : lastReqLine ls <;> simp [lastReqLine, hlr, hHf]
            rw [hlr2]
            exact lr
          · intro kv hkv
            rcases prov kv hkv with h | ⟨l', hl', hh', hp'⟩
            · rcases List.mem_cons.mp h with heq | hmem
              · refine Or.inr ⟨l, List.mem_cons_self l ls, hisH, ?_⟩
                rw [heq]
              · exact Or.inl (List.mem_of_mem_filter hmem)
            · exact Or.inr ⟨l', List.mem_cons_of_mem l hl', hh', hp'⟩
        · -- ignored-line branch
          have hCf : l.data.contains ':' = false := by simpa using hC
          rw [step_other st l h0 hHf hCf hnel] at hstep
          have hst1 : st = st1 := by injection hstep
          subst hst1
          obtain ⟨ib, mb, lkp, cnt, lr, prov⟩ := ih st st' h0 hne1 hfold1
          have hC' : ':' ∉ l.data := by simpa using hCf
          have hisH : isHeaderLine l = false := by simp [isHeaderLine, hC']
          refine ⟨ib, mb, ?_, ?_, ?_, ?_⟩
          · intro k
            have hcons : lastHeaderValue k (l :: ls) = lastHeaderValue k ls := by
              cases hlv : lastHeaderValue k ls <;>
                simp [lastHeaderValue, hlv, hisH]
            rw [hcons]
            exact lkp k
          · intro k
            have hcons : lastHeaderValue k (l :: ls) = lastHeaderValue k ls := by
              cases hlv : lastHeaderValue k ls <;>
                simp [lastHeaderValue, hlv, hisH]
            rw [hcons]
            exact cnt k
          · have hlr2 : lastReqLine (l :: ls) = lastReqLine ls := by
              cases hlr : lastReqLine ls <;> simp [lastReqLine, hlr, hHf]
            rw [hlr2]
            exact lr
          · intro kv hkv
            rcases prov kv hkv with h | ⟨l', hl', hh', hp'⟩
            · exact Or.inl h
            · exact Or.inr ⟨l', List.mem_cons_of_mem l hl', hh', hp'⟩

/-- Every pre-body line is non-blank. -/
theorem preLines_ne_blank (s : String) : ∀ l ∈ preLines s, ¬ l = "" := by
  intro l hl
  have h := List.mem_takeWhile_imp hl
  simpa using h

/-- The header phase cannot fail as long as every `"HTTP"` line has at
least three whitespace tokens. -/
theorem preFold_success (ls : List String) : ∀ st : ParseSt,
    st.in_body = false → (∀ l ∈ ls, ¬ l = "") →
    (∀ l ∈ ls, containsHTTP l = true → ∃ t, processReqLine l = some t) →
    ∃ st1, List.foldlM step st ls = some st1 := by
  induction ls with
  | nil => exact fun st _ _ _ => ⟨st, rfl⟩
  | cons l ls ih =>
    intro st h0 hne hok
    have hnel := hne l (List.mem_cons_self l ls)
    have step_some : ∃ st1, step st l = some st1 ∧ st1.in_body = false := by
      by_cases hH : containsHTTP l = true
      · obtain ⟨t, ht⟩ := hok l (List.mem_cons_self l ls) hH
        obtain ⟨m, r, v⟩ := t
        rw [step_req st l h0 hH, ht]
        exact ⟨_, rfl, h0⟩
      · have hHf : containsHTTP l = false := by simpa using hH
        by_cases hC : l.data.contains ':' = true
        · rw [step_header st l h0 hHf hC]
          exact ⟨_, rfl, h0⟩
        · have hCf : l.data.contains ':' = false := by simpa using hC
          rw [step_other st l h0 hHf hCf hnel]
          exact ⟨_, rfl, h0⟩
    obtain ⟨st1, hstep, hib⟩ := step_some
    obtain ⟨st2, h2⟩ := ih st1 hib
      (fun x hx => hne x (List.mem_cons_of_mem _ hx))
      (fun x hx hx2 => hok x (List.mem_cons_of_mem _ hx) hx2)
    refine ⟨st2, ?_⟩
    rw [List.foldlM_cons, hstep]
    exact h2

/-- A successful parse factors through the header phase: the request's
headers, method, resource and version are exactly those of the state after
folding the pre-body lines from the initial state. -/
theorem parse_structure (s : String) (req : HttpRequest)
    (h : httpRequestFrom s = some req) :
    ∃ st1, List.foldlM step initSt (preLines s) = some st1 ∧
      req.headers = st1.headers ∧ req.method = st1.method ∧
      req.resource = st1.resource ∧ req.version = st1.version := by
  simp only [httpRequestFrom] at h
  cases hfold : List.foldlM step initSt (rustLines s) with
  | none => rw [hfold] at h; cases h
  | some fin =>
    rw [hfold] at h
    have hreq : req.headers = fin.headers ∧ req.method = fin.method ∧
        req.resource = fin.resource ∧ req.version = fin.version := by
      injection h with h'
      rw [← h']
      exact ⟨rfl, rfl, rfl, rfl⟩
    have hsplit : rustLines s
        = preLines s ++ (rustLines s).dropWhile (fun l => l != "") := by
      rw [preLines]
      exact (List.takeWhile_append_dropWhile _ _).symm
    rw [hsplit, List.foldlM_append] at hfold
    cases hp : List.foldlM step initSt (preLines s) with
    | none => rw [hp] at hfold; simp at hfold
    | some st1 =>
      rw [hp] at hfold
      have hfold2 : List.foldlM step st1 ((rustLines s).dropWhile (fun l => l != ""))
          = some fin := hfold
      have hib : st1.in_body = false :=
        (preFold_spec (preLines s) initSt st1 rfl (preLines_ne_blank s) hp).1
      cases hr : (rustLines s).dropWhile (fun l => l != "") with
      | nil =>
        rw [hr] at hfold2
        have hsf : st1 = fin := by simpa using hfold2
        subst hsf
        exact ⟨st1, rfl, hreq.1, hreq.2.1, hreq.2.2.1, hreq.2.2.2⟩
      | cons x tail =>
        have hx : x = "" := by
          have h3 := List.head?_dropWhile_not (fun l => l != "") (rustLines s)
          rw [hr] at h3
          simpa using h3
        subst hx
        rw [hr, List.foldlM_cons, step_blank st1 hib] at hfold2
        have hfold3 : List.foldlM step { st1 with in_body := true } tail
            = some fin := hfold2
        obtain ⟨b, hb⟩ := bodyFold tail { st1 with in_body := true } rfl
        rw [hb] at hfold3
        have hfin : ({ st1 with in_body := true, msg_body := b } : ParseSt)
            = fin := by
          injection hfold3
        refine ⟨st1, rfl, ?_, ?_, ?_, ?_⟩
        · rw [hreq.1, ← hfin]
        · rw [hreq.2.1, ← hfin]
        · rw [hreq.2.2.1, ← hfin]
        · rw [hreq.2.2.2, ← hfin]

/-- If no line contains `"HTTP"`, there is no request line. -/
theorem lastReqLine_eq_none (ls : List String)
    (h : ∀ l ∈ ls, containsHTTP l = false) : lastReqLine ls = none := by
  induction ls with
  | nil => rfl
  | cons l ls ih =>
    have h1 := ih (fun x hx => h x (List.mem_cons_of_mem l hx))
    simp [lastReqLine, h1, h l (List.mem_cons_self l ls)]

/-- C9: when no pre-body line contains `"HTTP"`, parsing succeeds (no panic
is reachable) and the returned request keeps the pre-initialized sentinels:
method `Uninitialized`, version `V1_1` and resource `Path ""`. -/
theorem parse_no_request_line_defaults (s : String)
    (h : ∀ l ∈ preLines s, containsHTTP l = false) :
    ∃ req, httpRequestFrom s = some req ∧
      req.method = Method.Uninitialized ∧ req.version = Version.V1_1 ∧
      req.resource = Resource.Path "" := by
  have hne := preLines_ne_blank s
  obtain ⟨st1, hp⟩ := preFold_success (preLines s) initSt rfl hne
    (fun l hl hH => absurd (h l hl) (by simp [hH]))
  obtain ⟨ib, _, _, _, lr, _⟩ := preFold_spec (preLines s) initSt st1 rfl hne hp
  have hlr : lastReqLine (preLines s) = none := lastReqLine_eq_none _ h
  simp only [hlr] at lr
  have hsplit : rustLines s
      = preLines s ++ (rustLines s).dropWhile (fun l => l != "") := by
    rw [preLines]
    exact (List.takeWhile_append_dropWhile _ _).symm
  have hfin : ∃ fin, List.foldlM step initSt (rustLines s) = some fin ∧
      fin.method = st1.method ∧ fin.version = st1.version ∧
      fin.resource = st1.resource := by
    cases hr : (rustLines s).dropWhile (fun l => l != "") with
    | nil =>
      refine ⟨st1, ?_, rfl, rfl, rfl⟩
      rw [hsplit, hr, List.append_nil, hp]
    | cons x tail =>
      have hx : x = "" := by
        have h3 := List.head?_dropWhile_not (fun l => l != "") (rustLines s)
        rw [hr] at h3
        simpa using h3
      subst hx
      obtain ⟨b, hb⟩ := bodyFold tail { st1 with in_body := true } rfl
      refine ⟨{ st1 with in_body := true, msg_body := b }, ?_, rfl, rfl, rfl⟩
      have hrest : List.foldlM step st1 ("" :: tail)
          = some { st1 with in_body := true, msg_body := b } := by
        rw [List.foldlM_cons, step_blank st1 ib]
        exact hb
      rw [hsplit, hr, List.foldlM_append, hp]
      exact hrest
  obtain ⟨fin, hfold, hm, hv, hres⟩ := hfin
  refine ⟨{ method := fin.method,
            version := fin.version,
            resource := fin.resource,
            headers := fin.headers,
            msg_body := trimEndNul fin.msg_body }, ?_, ?_, ?_, ?_⟩
  · simp only [httpRequestFrom, hfold]
  · show fin.method = Method.Uninitialized
    rw [hm, lr.1]
    rfl
  · show fin.version = Version.V1_1
    rw [hv, lr.2.2]
    rfl
  · show fin.resource = Resource.Path ""
    rw [hres, lr.2.1]
    rfl

/-- C9 witness: a headers-only input with no `"HTTP"` line parses to the
sentinels. -/
theorem parse_no_request_line_witness :
    ∃ req, httpRequestFrom "Host: x\r\nAccept: y\r\n\r\nbody" = some req ∧
      req.method = Method.Uninitialized ∧ req.version = Version.V1_1 ∧
      req.resource = Resource.Path "" :=
  parse_no_request_line_defaults "Host: x\r\nAccept: y\r\n\r\nbody" (by decide)

/-- C8: in a successful parse, every key resolves to the value of the last
header line with that key among the pre-body lines (and to nothing if there
is none), each present key has exactly one entry in the map, and every map
entry comes from some pre-body header line — in particular never from the
request line. -/
theorem headers_last_write_wins (s : String) (req : HttpRequest)
    (h : httpRequestFrom s = some req) :
    (∀ k, headerLookup k req.headers = lastHeaderValue k (preLines s)) ∧
    (∀ k, countKey k req.headers =
      (match lastHeaderValue k (preLines s) with
       | some _ => 1
       | none => 0)) ∧
    (∀ kv ∈ req.headers, ∃ l, l ∈ preLines s ∧ isHeaderLine l = true ∧
      processHeaderLine l = kv) := by
  obtain ⟨st1, hp, hh, _, _, _⟩ := parse_structure s req h
  obtain ⟨_, _, lkp, cnt, _, prov⟩ :=
    preFold_spec (preLines s) initSt st1 rfl (preLines_ne_blank s) hp
  refine ⟨?_, ?_, ?_⟩
  · intro k
    rw [hh]
    have hx := lkp k
    cases hlv : lastHeaderValue k (preLines s) with
    | some v => simpa [hlv] using hx
    | none =>
      simp only [hlv] at hx
      rw [hx]
      rfl
  · intro k
    rw [hh]
    have hx := cnt k
    cases hlv : lastHeaderValue k (preLines s) with
    | some v => simpa [hlv] using hx
    | none =>
      simp only [hlv] at hx
      rw [hx]
      rfl
  · intro kv hkv
    rw [hh] at hkv
    rcases prov kv hkv with h0 | hex
    · simp [initSt] at h0
    · exact hex

/-- C8 witness: with duplicate key `A` the map holds the last value `"2"`. -/
theorem headers_last_write_wins_witness :
    headerLookup "A" ([("A", "2")] : List (String × String))
      = lastHeaderValue "A" (preLines "GET / HTTP/1.1\r\nA: 1\r\nA: 2\r\n\r\nx") ∧
    lastHeaderValue "A" (preLines "GET / HTTP/1.1\r\nA: 1\r\nA: 2\r\n\r\nx")
      = some "2" :=
  ⟨(headers_last_write_wins "GET / HTTP/1.1\r\nA: 1\r\nA: 2\r\n\r\nx"
      { method := Method.Get,
        version := Version.V1_1,
        resource := Resource.Path "/",
        headers := [("A", "2")],
        msg_body := "x" } (by decide)).1 "A", by decide⟩

/-- C10: in a successful parse, method, resource and version come from the
last pre-body line containing `"HTTP"` (via `process_req_line`), and no map
entry comes from a line containing `"HTTP"`; moreover the header-shaped
line `"User-Agent: HTTP-client/1.0"` is processed as a request line, not a
header — since it has only two whitespace tokens the parse panics. -/
theorem request_line_is_last_http_line (s : String) (req : HttpRequest)
    (l : String) (hreq : httpRequestFrom s = some req)
    (hl : lastReqLine (preLines s) = some l) :
    (∃ m r v, processReqLine l = some (m, r, v) ∧
      req.method = m ∧ req.resource = r ∧ req.version = v) ∧
    (∀ kv ∈ req.headers, ∃ x, x ∈ preLines s ∧ containsHTTP x = false ∧
      processHeaderLine x = kv) ∧
    httpRequestFrom "GET / HTTP/1.1\r\nUser-Agent: HTTP-client/1.0\r\n\r\nx"
      = none := by
  obtain ⟨st1, hp, hh, hm, hr, hv⟩ := parse_structure s req hreq
  obtain ⟨_, _, _, _, lr, prov⟩ :=
    preFold_spec (preLines s) initSt st1 rfl (preLines_ne_blank s) hp
  simp only [hl] at lr
  obtain ⟨m, r, v, hprl, h1, h2, h3⟩ := lr
  refine ⟨⟨m, r, v, hprl, by rw [hm, h1], by rw [hr, h2], by rw [hv, h3]⟩,
    ?_, by decide⟩
  intro kv hkv
  rw [hh] at hkv
  rcases prov kv hkv with h0 | ⟨x, hx, hhx, hpx⟩
  · simp [initSt] at h0
  · refine ⟨x, hx, ?_, hpx⟩
    have hb := hhx
    simp only [isHeaderLine, Bool.and_eq_true, Bool.not_eq_true'] at hb
    exact hb.1

/-- C10 witness: with two `"HTTP"` lines the second wins; its tokens give
method POST, resource `/b`, version `HTTP/2.0`. -/
theorem request_line_is_last_http_line_witness :
    ∃ m r v, processReqLine "POST /b HTTP/2.0" = some (m, r, v) ∧
      ({ method := Method.Post,
         version := Version.V2_0,
         resource := Resource.Path "/b",
         headers := [("Host", "x")],
         msg_body := "b" } : HttpRequest).method = m ∧
      ({ method := Method.Post,
         version := Version.V2_0,
         resource := Resource.Path "/b",
         headers := [("Host", "x")],
         msg_body := "b" } : HttpRequest).resource = r ∧
      ({ method := Method.Post,
         version := Version.V2_0,
         resource := Resource.Path "/b",
         headers := [("Host", "x")],
         msg_body := "b" } : HttpRequest).version = v :=
  (request_line_is_last_http_line "GET /a HTTP/1.1\r\nPOST /b HTTP/2.0\r\nHost: x\r\n\r\nb"
    { method := Method.Post,
      version := Version.V2_0,
      resource := Resource.Path "/b",
      headers := [("Host", "x")],
      msg_body := "b" } "POST /b HTTP/2.0" (by decide) (by decide)).1
